import Mathlib

/-!
# Verification of the Black-Scholes pricing engine in `src/main.py`

This file gives a shallow embedding of the pricing functions of the
options calculator (`black_scholes_call`, `black_scholes_put`, the Greeks,
moneyness classification, input validation and the CLI side normalization)
over exact real arithmetic, with `scipy.stats.norm.cdf` embedded as the
integral of the standard normal density, and proves or refutes the
specified properties.
-/

open MeasureTheory Set Filter

noncomputable section

/-- Standard normal probability density, the embedding of `scipy.stats.norm.pdf`. -/
def normPdf (x : ℝ) : ℝ := Real.exp (-(x ^ 2) / 2) / Real.sqrt (2 * Real.pi)

/-- Standard normal cumulative distribution, the embedding of `scipy.stats.norm.cdf`. -/
def normCdf (x : ℝ) : ℝ := ∫ t in Iic x, normPdf t

/-- The quantity `d1` computed identically in each pricing/Greek function of
`src/main.py`: `(np.log(S/K) + (r + 0.5*sigma**2)*T) / (sigma*np.sqrt(T))`. -/
def bs_d1 (S K T r sigma : ℝ) : ℝ :=
  (Real.log (S / K) + (r + 0.5 * sigma ^ 2) * T) / (sigma * Real.sqrt T)

/-- The quantity `d2 = d1 - sigma*np.sqrt(T)` of `src/main.py`. -/
def bs_d2 (S K T r sigma : ℝ) : ℝ := bs_d1 S K T r sigma - sigma * Real.sqrt T

/-- Embedding of `black_scholes_call` (src/main.py lines 17-29): returns `0.0`
when any of `S, K, T, sigma` is nonpositive, otherwise the Black-Scholes call
price clamped below by zero via `max(0, call_price)`. -/
def black_scholes_call (S K T r sigma : ℝ) : ℝ :=
  if S ≤ 0 ∨ K ≤ 0 ∨ T ≤ 0 ∨ sigma ≤ 0 then 0
  else
    max 0 (S * normCdf (bs_d1 S K T r sigma) -
      K * Real.exp (-r * T) * normCdf (bs_d2 S K T r sigma))

/-- Embedding of `black_scholes_put` (src/main.py lines 31-43). -/
def black_scholes_put (S K T r sigma : ℝ) : ℝ :=
  if S ≤ 0 ∨ K ≤ 0 ∨ T ≤ 0 ∨ sigma ≤ 0 then 0
  else
    max 0 (K * Real.exp (-r * T) * normCdf (-bs_d2 S K T r sigma) -
      S * normCdf (-bs_d1 S K T r sigma))

/-- Embedding of `calculate_delta` (src/main.py lines 45-58). -/
def calculate_delta (S K T r sigma : ℝ) (option_type : String) : ℝ :=
  if S ≤ 0 ∨ K ≤ 0 ∨ T ≤ 0 ∨ sigma ≤ 0 then 0
  else if option_type = "call" then normCdf (bs_d1 S K T r sigma)
  else normCdf (bs_d1 S K T r sigma) - 1

/-- Embedding of `calculate_gamma` (src/main.py lines 60-69): note it takes no
`option_type` parameter. -/
def calculate_gamma (S K T r sigma : ℝ) : ℝ :=
  if S ≤ 0 ∨ K ≤ 0 ∨ T ≤ 0 ∨ sigma ≤ 0 then 0
  else normPdf (bs_d1 S K T r sigma) / (S * sigma * Real.sqrt T)

/-- Embedding of `calculate_theta` (src/main.py lines 71-89). -/
def calculate_theta (S K T r sigma : ℝ) (option_type : String) : ℝ :=
  if S ≤ 0 ∨ K ≤ 0 ∨ T ≤ 0 ∨ sigma ≤ 0 then 0
  else if option_type = "call" then
    -S * normPdf (bs_d1 S K T r sigma) * sigma / (2 * Real.sqrt T) -
      r * K * Real.exp (-r * T) * normCdf (bs_d2 S K T r sigma)
  else
    -S * normPdf (bs_d1 S K T r sigma) * sigma / (2 * Real.sqrt T) +
      r * K * Real.exp (-r * T) * normCdf (-bs_d2 S K T r sigma)

/-- Embedding of `calculate_vega` (src/main.py lines 91-100): no `option_type`
parameter. -/
def calculate_vega (S K T r sigma : ℝ) : ℝ :=
  if S ≤ 0 ∨ K ≤ 0 ∨ T ≤ 0 ∨ sigma ≤ 0 then 0
  else S * Real.sqrt T * normPdf (bs_d1 S K T r sigma)

/-- Embedding of `calculate_rho` (src/main.py lines 102-116): the source
computes `d2` DIRECTLY as `(np.log(S/K) + (r - 0.5*sigma**2)*T)/(sigma*np.sqrt(T))`
instead of via `d1 - sigma*np.sqrt(T)`; this embedding preserves that. -/
def calculate_rho (S K T r sigma : ℝ) (option_type : String) : ℝ :=
  if S ≤ 0 ∨ K ≤ 0 ∨ T ≤ 0 ∨ sigma ≤ 0 then 0
  else if option_type = "call" then
    K * T * Real.exp (-r * T) *
      normCdf ((Real.log (S / K) + (r - 0.5 * sigma ^ 2) * T) / (sigma * Real.sqrt T))
  else
    -(K * T * Real.exp (-r * T) *
      normCdf (-((Real.log (S / K) + (r - 0.5 * sigma ^ 2) * T) / (sigma * Real.sqrt T))))

/-- The third component of the triple returned by `calculate_moneyness`: the
description string, with the embedded `.2f`-formatted monetary amount kept as
an exact real (string formatting is presentation only). -/
inductive MoneyDesc where
  | intrinsic (v : ℝ)
  | noIntrinsic
  | breakEven

/-- Embedding of `calculate_moneyness` (src/main.py lines 118-131).  Note the
source compares `option_type == "Call"` with a capital C. -/
def calculate_moneyness (S K : ℝ) (option_type : String) : String × String × MoneyDesc :=
  if S > K then
    if option_type = "Call" then ("In-the-Money", "ITM", MoneyDesc.intrinsic (S - K))
    else ("Out-of-the-Money", "OTM", MoneyDesc.noIntrinsic)
  else if S < K then
    if option_type = "Call" then ("Out-of-the-Money", "OTM", MoneyDesc.noIntrinsic)
    else ("In-the-Money", "ITM", MoneyDesc.intrinsic (K - S))
  else ("At-the-Money", "ATM", MoneyDesc.breakEven)

/-- Embedding of `validate_inputs` (src/main.py lines 137-152): the list of
error messages accumulated in order. -/
def validate_inputs (S K T r sigma : ℝ) : List String :=
  (if S ≤ 0 then ["Spot price must be positive"] else []) ++
  (if K ≤ 0 then ["Strike price must be positive"] else []) ++
  (if T ≤ 0 then ["Time to expiry must be positive"] else []) ++
  (if sigma ≤ 0 then ["Volatility must be positive"] else []) ++
  (if r < 0 then ["Risk-free rate cannot be negative"] else [])

/-- The five Greeks printed by `print_results`. -/
structure PrintedGreeks where
  delta : ℝ
  gamma : ℝ
  theta : ℝ
  vega : ℝ
  rho : ℝ

/-- The Greeks computed by `print_results` (src/main.py lines 172-185) for the
selected side: `delta`, `theta`, `rho` are side-selected, `gamma` and `vega`
are computed once with no side argument. -/
def print_results_greeks (S K T r sigma : ℝ) (option_type : String) : PrintedGreeks :=
  if option_type = "call" then
    ⟨calculate_delta S K T r sigma "call", calculate_gamma S K T r sigma,
      calculate_theta S K T r sigma "call", calculate_vega S K T r sigma,
      calculate_rho S K T r sigma "call"⟩
  else
    ⟨calculate_delta S K T r sigma "put", calculate_gamma S K T r sigma,
      calculate_theta S K T r sigma "put", calculate_vega S K T r sigma,
      calculate_rho S K T r sigma "put"⟩

/-- The selected-side option price of `print_results` (src/main.py lines 173-182). -/
def print_results_option_price (S K T r sigma : ℝ) (option_type : String) : ℝ :=
  if option_type = "call" then black_scholes_call S K T r sigma
  else black_scholes_put S K T r sigma

/-- The intrinsic value computed at src/main.py line 208:
`max(0, S - K) if option_type == 'call' else max(0, K - S)`. -/
def print_results_intrinsic (S K : ℝ) (option_type : String) : ℝ :=
  if option_type = "call" then max 0 (S - K) else max 0 (K - S)

/-- The time value computed at src/main.py line 209:
`option_price - intrinsic_value`. -/
def print_results_time_value (S K T r sigma : ℝ) (option_type : String) : ℝ :=
  print_results_option_price S K T r sigma option_type -
    print_results_intrinsic S K option_type

/-- Embedding of Python `str.lower` for the ASCII strings the CLI deals in. -/
def str_lower (s : String) : String := s.map Char.toLower

/-- Embedding of the side normalization of `interactive_mode`
(src/main.py lines 296-300): lowercase the input, replace anything outside
`['call', 'put']` with `"call"`. -/
def interactive_option_type (s : String) : String :=
  if str_lower s ∈ ["call", "put"] then str_lower s else "call"

/-- The spec formulation of Rho (spec section 4.1): `K·T·e^(−rT)·Φ(d2)` for
calls and `−K·T·e^(−rT)·Φ(−d2)` for puts, with `d2 = d1 − σ·√T` derived from
`d1`; kept separate from `calculate_rho` to compare the two. -/
def rho_spec (S K T r sigma : ℝ) (option_type : String) : ℝ :=
  if option_type = "call" then
    K * T * Real.exp (-r * T) * normCdf (bs_d1 S K T r sigma - sigma * Real.sqrt T)
  else
    -(K * T * Real.exp (-r * T) * normCdf (-(bs_d1 S K T r sigma - sigma * Real.sqrt T)))

end

/-! ## Facts about the standard normal density and distribution -/

lemma sqrt_two_pi_pos : 0 < Real.sqrt (2 * Real.pi) :=
  Real.sqrt_pos.2 (by positivity)

lemma normPdf_pos (x : ℝ) : 0 < normPdf x :=
  div_pos (Real.exp_pos _) sqrt_two_pi_pos

lemma normPdf_nonneg (x : ℝ) : 0 ≤ normPdf x := (normPdf_pos x).le

lemma normPdf_neg (x : ℝ) : normPdf (-x) = normPdf x := by
  simp [normPdf, neg_sq]

lemma continuous_normPdf : Continuous normPdf := by
  unfold normPdf
  fun_prop

lemma normPdf_eq_gauss (x : ℝ) :
    normPdf x = Real.exp (-(1 / 2 : ℝ) * x ^ 2) * (Real.sqrt (2 * Real.pi))⁻¹ := by
  rw [normPdf, div_eq_mul_inv]
  congr 2
  ring

lemma integrable_normPdf : Integrable normPdf := by
  have h : Integrable
      (fun x : ℝ => Real.exp (-(1 / 2 : ℝ) * x ^ 2) * (Real.sqrt (2 * Real.pi))⁻¹) :=
    (integrable_exp_neg_mul_sq (by norm_num)).mul_const _
  exact h.congr (Eventually.of_forall fun x => (normPdf_eq_gauss x).symm)

lemma integral_normPdf : ∫ x : ℝ, normPdf x = 1 := by
  simp_rw [normPdf_eq_gauss]
  rw [integral_mul_right, integral_gaussian,
    show Real.pi / (1 / 2 : ℝ) = 2 * Real.pi by ring]
  exact mul_inv_cancel₀ (ne_of_gt sqrt_two_pi_pos)

lemma normCdf_nonneg (x : ℝ) : 0 ≤ normCdf x :=
  setIntegral_nonneg measurableSet_Iic fun t _ => normPdf_nonneg t

lemma normCdf_le_one (x : ℝ) : normCdf x ≤ 1 := by
  rw [← integral_normPdf]
  exact setIntegral_le_integral integrable_normPdf
    (Eventually.of_forall fun t => normPdf_nonneg t)

lemma normCdf_add_Ioi (x : ℝ) : normCdf x + ∫ t in Ioi x, normPdf t = 1 := by
  rw [← integral_normPdf, ← compl_Iic]
  exact integral_add_compl measurableSet_Iic integrable_normPdf

lemma normCdf_neg_eq_Ioi (x : ℝ) : normCdf (-x) = ∫ t in Ioi x, normPdf t := by
  have h1 : normCdf (-x) = ∫ t in Iic (-x), normPdf (-t) := by
    rw [normCdf]
    refine setIntegral_congr_fun measurableSet_Iic fun t _ => ?_
    rw [normPdf_neg]
  rw [h1, integral_comp_neg_Iic, neg_neg]

lemma normCdf_neg (x : ℝ) : normCdf (-x) = 1 - normCdf x := by
  rw [normCdf_neg_eq_Ioi]
  linarith [normCdf_add_Ioi x]

lemma normCdf_mono : Monotone normCdf := fun _ _ hab =>
  setIntegral_mono_set integrable_normPdf.integrableOn
    (Eventually.of_forall fun t => normPdf_nonneg t)
    (HasSubset.Subset.eventuallyLE (Iic_subset_Iic.2 hab))

lemma normCdf_eq_intervalIntegral (x : ℝ) :
    normCdf x = normCdf 0 + ∫ t in (0 : ℝ)..x, normPdf t := by
  have h := intervalIntegral.integral_Iic_sub_Iic
    (integrable_normPdf.integrableOn (s := Iic 0))
    (integrable_normPdf.integrableOn (s := Iic x))
  unfold normCdf
  linarith [h]

lemma hasDerivAt_normCdf (x : ℝ) : HasDerivAt normCdf (normPdf x) x := by
  have h : HasDerivAt (fun u => ∫ t in (0 : ℝ)..u, normPdf t) (normPdf x) x :=
    intervalIntegral.integral_hasDerivAt_right
      (continuous_normPdf.intervalIntegrable 0 x)
      (continuous_normPdf.stronglyMeasurableAtFilter _ _)
      continuous_normPdf.continuousAt
  have h2 : HasDerivAt (fun u => normCdf 0 + ∫ t in (0 : ℝ)..u, normPdf t)
      (normPdf x) x := h.const_add _
  have hfun : normCdf = fun u => normCdf 0 + ∫ t in (0 : ℝ)..u, normPdf t :=
    funext normCdf_eq_intervalIntegral
  rw [hfun]
  exact h2

lemma hasDerivAt_neg_normPdf (x : ℝ) :
    HasDerivAt (fun u => -normPdf u) (x * normPdf x) x := by
  have h1 : HasDerivAt (fun u : ℝ => -(u ^ 2) / 2) (-x) x := by
    have := ((hasDerivAt_pow 2 x).neg).div_const 2
    simpa using this.congr_deriv (by ring)
  have h2 : HasDerivAt (fun u : ℝ => Real.exp (-(u ^ 2) / 2))
      (Real.exp (-(x ^ 2) / 2) * (-x)) x := h1.exp
  have h3 : HasDerivAt normPdf (Real.exp (-(x ^ 2) / 2) * (-x) / Real.sqrt (2 * Real.pi)) x := by
    unfold normPdf
    exact h2.div_const _
  have h4 := h3.neg
  refine h4.congr_deriv ?_
  rw [normPdf]
  ring

lemma tendsto_neg_normPdf_atTop : Tendsto (fun u => -normPdf u) atTop (nhds 0) := by
  have h0 : Tendsto (fun u : ℝ => -(u ^ 2)) atTop atBot :=
    tendsto_neg_atBot_iff.2 (tendsto_pow_atTop (by norm_num))
  have h1 : Tendsto (fun u : ℝ => -(u ^ 2) / 2) atTop atBot :=
    h0.atBot_div_const (by norm_num)
  have h2 : Tendsto (fun u : ℝ => Real.exp (-(u ^ 2) / 2)) atTop (nhds 0) :=
    Real.tendsto_exp_atBot.comp h1
  have h3 : Tendsto normPdf atTop (nhds 0) := by
    have h4 := h2.div_const (Real.sqrt (2 * Real.pi))
    rw [zero_div] at h4
    exact h4
  have h5 := h3.neg
  rw [neg_zero] at h5
  exact h5

lemma integral_Ioi_id_mul_normPdf (t : ℝ) (ht : 0 ≤ t) :
    ∫ u in Ioi t, u * normPdf u = normPdf t := by
  have hderiv : ∀ x ∈ Ioi t,
      HasDerivAt (fun u => -normPdf u) ((fun u => u * normPdf u) x) x :=
    fun x _ => hasDerivAt_neg_normPdf x
  have hpos : ∀ x ∈ Ioi t, 0 ≤ (fun u => u * normPdf u) x :=
    fun x hx => mul_nonneg (ht.trans (le_of_lt hx)) (normPdf_nonneg x)
  have h := integral_Ioi_of_hasDerivAt_of_nonneg
    ((continuous_normPdf.neg).continuousWithinAt) hderiv hpos
    tendsto_neg_normPdf_atTop
  have h2 : (0 : ℝ) - -normPdf t = normPdf t := by ring
  exact h.trans h2

lemma integrableOn_id_mul_normPdf (t : ℝ) (ht : 0 ≤ t) :
    IntegrableOn (fun u => u * normPdf u) (Ioi t) := by
  have hderiv : ∀ x ∈ Ioi t,
      HasDerivAt (fun u => -normPdf u) ((fun u => u * normPdf u) x) x :=
    fun x _ => hasDerivAt_neg_normPdf x
  have hpos : ∀ x ∈ Ioi t, 0 ≤ (fun u => u * normPdf u) x :=
    fun x hx => mul_nonneg (ht.trans (le_of_lt hx)) (normPdf_nonneg x)
  exact integrableOn_Ioi_deriv_of_nonneg
    ((continuous_normPdf.neg).continuousWithinAt) hderiv hpos
    tendsto_neg_normPdf_atTop

/-- The Mills-ratio bound: for `t > 0`, `t · Φ(−t) ≤ φ(t)`. -/
lemma mills_bound (t : ℝ) (ht : 0 < t) : t * normCdf (-t) ≤ normPdf t := by
  rw [normCdf_neg_eq_Ioi]
  have hmono : ∫ u in Ioi t, normPdf u ≤ ∫ u in Ioi t, u / t * normPdf u := by
    refine setIntegral_mono_on integrable_normPdf.integrableOn ?_ measurableSet_Ioi ?_
    · have h := (integrableOn_id_mul_normPdf t ht.le).div_const t
      refine MeasureTheory.IntegrableOn.congr_fun h (fun u _ => ?_) measurableSet_Ioi
      ring
    · intro u hu
      have h1 : (1 : ℝ) ≤ u / t := (one_le_div ht).2 (le_of_lt hu)
      nlinarith [normPdf_nonneg u]
  have heval : ∫ u in Ioi t, u / t * normPdf u = normPdf t / t := by
    have : ∀ u : ℝ, u / t * normPdf u = u * normPdf u / t := fun u => by ring
    simp_rw [this]
    rw [integral_div, integral_Ioi_id_mul_normPdf t ht.le]
  rw [heval] at hmono
  calc t * ∫ u in Ioi t, normPdf u ≤ t * (normPdf t / t) :=
        mul_le_mul_of_nonneg_left hmono ht.le
    _ = normPdf t := by field_simp

lemma hasDerivAt_expsq_mul_normCdf (x : ℝ) :
    HasDerivAt (fun y => Real.exp (y ^ 2 / 2) * normCdf y)
      (x * Real.exp (x ^ 2 / 2) * normCdf x + Real.exp (x ^ 2 / 2) * normPdf x) x := by
  have h1 : HasDerivAt (fun y : ℝ => y ^ 2 / 2) x x := by
    have := (hasDerivAt_pow 2 x).div_const 2
    simpa using this.congr_deriv (by ring)
  have h2 : HasDerivAt (fun y : ℝ => Real.exp (y ^ 2 / 2))
      (Real.exp (x ^ 2 / 2) * x) x := h1.exp
  have h3 := h2.mul (hasDerivAt_normCdf x)
  exact h3.congr_deriv (by ring)

lemma expsq_mul_normCdf_deriv_nonneg (x : ℝ) :
    0 ≤ x * Real.exp (x ^ 2 / 2) * normCdf x + Real.exp (x ^ 2 / 2) * normPdf x := by
  rcases le_or_lt 0 x with hx | hx
  · have h1 : 0 ≤ x * Real.exp (x ^ 2 / 2) * normCdf x :=
      mul_nonneg (mul_nonneg hx (Real.exp_pos _).le) (normCdf_nonneg x)
    have h2 : 0 ≤ Real.exp (x ^ 2 / 2) * normPdf x :=
      mul_nonneg (Real.exp_pos _).le (normPdf_nonneg x)
    linarith
  · have hm := mills_bound (-x) (by linarith)
    rw [neg_neg, normPdf_neg] at hm
    have hexp : 0 < Real.exp (x ^ 2 / 2) := Real.exp_pos _
    nlinarith [hm, hexp]

/-- The function `x ↦ e^(x²/2) · Φ(x)` is monotone; this is the analytic heart
of nonnegativity of the raw Black-Scholes prices. -/
lemma expsq_mul_normCdf_mono : Monotone (fun y => Real.exp (y ^ 2 / 2) * normCdf y) := by
  apply monotone_of_deriv_nonneg
  · exact fun x => (hasDerivAt_expsq_mul_normCdf x).differentiableAt
  · intro x
    rw [(hasDerivAt_expsq_mul_normCdf x).deriv]
    exact expsq_mul_normCdf_deriv_nonneg x

/-! ## Algebraic facts about the Black-Scholes quantities -/

lemma sigma_sqrtT_pos {T sigma : ℝ} (hT : 0 < T) (hsig : 0 < sigma) :
    0 < sigma * Real.sqrt T := mul_pos hsig (Real.sqrt_pos.2 hT)

lemma bs_d1_mul {S K T r sigma : ℝ} (hT : 0 < T) (hsig : 0 < sigma) :
    bs_d1 S K T r sigma * (sigma * Real.sqrt T) =
      Real.log (S / K) + r * T + sigma ^ 2 * T / 2 := by
  rw [bs_d1, div_mul_cancel₀ _ (ne_of_gt (sigma_sqrtT_pos hT hsig))]
  ring

lemma d1_sq_sub_d2_sq {S K T r sigma : ℝ} (hT : 0 < T) (hsig : 0 < sigma) :
    bs_d1 S K T r sigma ^ 2 - bs_d2 S K T r sigma ^ 2 =
      2 * (Real.log (S / K) + r * T) := by
  have hmul := bs_d1_mul (S := S) (K := K) (r := r) hT hsig
  have hsq : (sigma * Real.sqrt T) ^ 2 = sigma ^ 2 * T := by
    rw [mul_pow, Real.sq_sqrt hT.le]
  rw [bs_d2]
  linear_combination 2 * hmul - hsq

lemma spot_eq_discounted {S K T r sigma : ℝ} (hS : 0 < S) (hK : 0 < K)
    (hT : 0 < T) (hsig : 0 < sigma) :
    S = K * Real.exp (-r * T) *
      Real.exp ((bs_d1 S K T r sigma ^ 2 - bs_d2 S K T r sigma ^ 2) / 2) := by
  rw [d1_sq_sub_d2_sq hT hsig,
    show 2 * (Real.log (S / K) + r * T) / 2 = Real.log (S / K) + r * T by ring,
    Real.exp_add, Real.exp_log (div_pos hS hK)]
  calc S = S / K * K * (Real.exp (-r * T) * Real.exp (r * T)) := by
        rw [← Real.exp_add]
        simp [div_mul_cancel₀ _ (ne_of_gt hK)]
    _ = K * Real.exp (-r * T) * (S / K * Real.exp (r * T)) := by ring

lemma normCdf_scale_step {a b : ℝ} (hab : a ≤ b) :
    normCdf a ≤ Real.exp ((b ^ 2 - a ^ 2) / 2) * normCdf b := by
  have hG := expsq_mul_normCdf_mono hab
  simp only at hG
  have hpos : 0 < Real.exp (a ^ 2 / 2) := Real.exp_pos _
  have h2 : Real.exp ((b ^ 2 - a ^ 2) / 2) * Real.exp (a ^ 2 / 2) =
      Real.exp (b ^ 2 / 2) := by
    rw [← Real.exp_add]
    congr 1
    ring
  nlinarith [hG, hpos, h2, normCdf_nonneg b, Real.exp_pos ((b ^ 2 - a ^ 2) / 2)]

lemma call_raw_nonneg {S K T r sigma : ℝ} (hS : 0 < S) (hK : 0 < K)
    (hT : 0 < T) (hsig : 0 < sigma) :
    0 ≤ S * normCdf (bs_d1 S K T r sigma) -
      K * Real.exp (-r * T) * normCdf (bs_d2 S K T r sigma) := by
  set d1 := bs_d1 S K T r sigma with hd1
  set d2 := bs_d2 S K T r sigma with hd2
  have hle : d2 ≤ d1 := by
    have : d2 = d1 - sigma * Real.sqrt T := rfl
    linarith [sigma_sqrtT_pos hT hsig, this.ge, this.le]
  have hkey : normCdf d2 ≤ Real.exp ((d1 ^ 2 - d2 ^ 2) / 2) * normCdf d1 :=
    normCdf_scale_step hle
  have hSeq : S = K * Real.exp (-r * T) * Real.exp ((d1 ^ 2 - d2 ^ 2) / 2) :=
    spot_eq_discounted hS hK hT hsig
  have hKe : 0 < K * Real.exp (-r * T) := mul_pos hK (Real.exp_pos _)
  calc (0 : ℝ) ≤ K * Real.exp (-r * T) *
        (Real.exp ((d1 ^ 2 - d2 ^ 2) / 2) * normCdf d1 - normCdf d2) :=
        mul_nonneg hKe.le (by linarith)
    _ = K * Real.exp (-r * T) * Real.exp ((d1 ^ 2 - d2 ^ 2) / 2) * normCdf d1 -
        K * Real.exp (-r * T) * normCdf d2 := by ring
    _ = S * normCdf d1 - K * Real.exp (-r * T) * normCdf d2 := by rw [← hSeq]

lemma put_raw_nonneg {S K T r sigma : ℝ} (hS : 0 < S) (hK : 0 < K)
    (hT : 0 < T) (hsig : 0 < sigma) :
    0 ≤ K * Real.exp (-r * T) * normCdf (-bs_d2 S K T r sigma) -
      S * normCdf (-bs_d1 S K T r sigma) := by
  set d1 := bs_d1 S K T r sigma with hd1
  set d2 := bs_d2 S K T r sigma with hd2
  have hle : d2 ≤ d1 := by
    have : d2 = d1 - sigma * Real.sqrt T := rfl
    linarith [sigma_sqrtT_pos hT hsig, this.ge, this.le]
  have hkey : normCdf (-d1) ≤ Real.exp (((-d2) ^ 2 - (-d1) ^ 2) / 2) * normCdf (-d2) :=
    normCdf_scale_step (neg_le_neg hle)
  have hkey2 : Real.exp ((d1 ^ 2 - d2 ^ 2) / 2) * normCdf (-d1) ≤ normCdf (-d2) := by
    have h2 : Real.exp ((d1 ^ 2 - d2 ^ 2) / 2) *
        Real.exp (((-d2) ^ 2 - (-d1) ^ 2) / 2) = 1 := by
      rw [← Real.exp_add]
      rw [show (d1 ^ 2 - d2 ^ 2) / 2 + ((-d2) ^ 2 - (-d1) ^ 2) / 2 = 0 by ring]
      exact Real.exp_zero
    nlinarith [hkey, Real.exp_pos ((d1 ^ 2 - d2 ^ 2) / 2),
      Real.exp_pos (((-d2) ^ 2 - (-d1) ^ 2) / 2), normCdf_nonneg (-d2)]
  have hSeq : S = K * Real.exp (-r * T) * Real.exp ((d1 ^ 2 - d2 ^ 2) / 2) :=
    spot_eq_discounted hS hK hT hsig
  have hKe : 0 < K * Real.exp (-r * T) := mul_pos hK (Real.exp_pos _)
  calc (0 : ℝ) ≤ K * Real.exp (-r * T) *
        (normCdf (-d2) - Real.exp ((d1 ^ 2 - d2 ^ 2) / 2) * normCdf (-d1)) :=
        mul_nonneg hKe.le (by linarith)
    _ = K * Real.exp (-r * T) * normCdf (-d2) -
        K * Real.exp (-r * T) * Real.exp ((d1 ^ 2 - d2 ^ 2) / 2) * normCdf (-d1) := by
        ring
    _ = K * Real.exp (-r * T) * normCdf (-d2) - S * normCdf (-d1) := by rw [← hSeq]

lemma parity_raw (S K T r sigma : ℝ) :
    (S * normCdf (bs_d1 S K T r sigma) -
        K * Real.exp (-r * T) * normCdf (bs_d2 S K T r sigma)) -
      (K * Real.exp (-r * T) * normCdf (-bs_d2 S K T r sigma) -
        S * normCdf (-bs_d1 S K T r sigma)) = S - K * Real.exp (-r * T) := by
  rw [normCdf_neg, normCdf_neg]
  ring

lemma not_invalid {S K T sigma : ℝ} (hS : 0 < S) (hK : 0 < K)
    (hT : 0 < T) (hsig : 0 < sigma) :
    ¬(S ≤ 0 ∨ K ≤ 0 ∨ T ≤ 0 ∨ sigma ≤ 0) := by
  push_neg
  exact ⟨hS, hK, hT, hsig⟩

lemma black_scholes_call_eq {S K T r sigma : ℝ} (hS : 0 < S) (hK : 0 < K)
    (hT : 0 < T) (hsig : 0 < sigma) :
    black_scholes_call S K T r sigma =
      S * normCdf (bs_d1 S K T r sigma) -
        K * Real.exp (-r * T) * normCdf (bs_d2 S K T r sigma) := by
  rw [black_scholes_call, if_neg (not_invalid hS hK hT hsig),
    max_eq_right (call_raw_nonneg hS hK hT hsig)]

lemma black_scholes_put_eq {S K T r sigma : ℝ} (hS : 0 < S) (hK : 0 < K)
    (hT : 0 < T) (hsig : 0 < sigma) :
    black_scholes_put S K T r sigma =
      K * Real.exp (-r * T) * normCdf (-bs_d2 S K T r sigma) -
        S * normCdf (-bs_d1 S K T r sigma) := by
  rw [black_scholes_put, if_neg (not_invalid hS hK hT hsig),
    max_eq_right (put_raw_nonneg hS hK hT hsig)]

lemma black_scholes_call_nonneg (S K T r sigma : ℝ) :
    0 ≤ black_scholes_call S K T r sigma := by
  rw [black_scholes_call]
  split_ifs
  · exact le_refl 0
  · exact le_max_left 0 _

lemma black_scholes_put_nonneg (S K T r sigma : ℝ) :
    0 ≤ black_scholes_put S K T r sigma := by
  rw [black_scholes_put]
  split_ifs
  · exact le_refl 0
  · exact le_max_left 0 _

lemma rho_d2_direct_eq {S K T r sigma : ℝ} (hT : 0 < T) (hsig : 0 < sigma) :
    (Real.log (S / K) + (r - 0.5 * sigma ^ 2) * T) / (sigma * Real.sqrt T) =
      bs_d1 S K T r sigma - sigma * Real.sqrt T := by
  have hs : sigma * Real.sqrt T ≠ 0 := (sigma_sqrtT_pos hT hsig).ne'
  have h2 : Real.sqrt T * Real.sqrt T = T := Real.mul_self_sqrt hT.le
  rw [bs_d1]
  field_simp
  linear_combination sigma ^ 2 * h2

/-! ## Claim theorems -/

/-- C1 (counterexample): for inputs with `S = 0` (resp. `K = -5`) the pricing
functions return the numeric, zero-valued result `0.0` — there is no
`InvalidInput` error signal in the pricing operation, contradicting the claim
that such inputs never yield a numeric result. -/
theorem invalid_input_yields_zero_not_error :
    black_scholes_call 0 100 1 (5 / 100) (2 / 10) = 0 ∧
      black_scholes_put 100 (-5) 1 (5 / 100) (2 / 10) = 0 := by
  constructor
  · rw [black_scholes_call, if_pos (Or.inl (by norm_num))]
  · rw [black_scholes_put, if_pos (Or.inr (Or.inl (by norm_num)))]

/-- C1 (amended): whenever any of `S, K, T, sigma` is nonpositive, both pricing
functions return exactly `0.0` (a zero-valued numeric result, not an error
signal), while `validate_inputs` reports a non-empty error list for every such
input, so the validated interactive pipeline never prices them. -/
theorem invalid_input_zero_and_validator_flags :
    ∀ S K T r sigma : ℝ, (S ≤ 0 ∨ K ≤ 0 ∨ T ≤ 0 ∨ sigma ≤ 0) →
      black_scholes_call S K T r sigma = 0 ∧ black_scholes_put S K T r sigma = 0 ∧
        validate_inputs S K T r sigma ≠ [] := by
  intro S K T r sigma h
  refine ⟨by rw [black_scholes_call, if_pos h], by rw [black_scholes_put, if_pos h], ?_⟩
  rw [validate_inputs]
  rcases h with h | h | h | h
  · rw [if_pos h]
    simp
  · rw [if_pos h]
    simp
  · rw [if_pos h]
    simp
  · rw [if_pos h]
    simp

/-- Witness for `invalid_input_zero_and_validator_flags` at `S = 0`. -/
theorem invalid_input_zero_and_validator_flags_witness :
    black_scholes_call 0 100 1 0 (2 / 10) = 0 ∧
      black_scholes_put 0 100 1 0 (2 / 10) = 0 ∧
        validate_inputs 0 100 1 0 (2 / 10) ≠ [] :=
  invalid_input_zero_and_validator_flags 0 100 1 0 (2 / 10) (Or.inl (by norm_num))

/-- C2 (code bug): `print_results` passes the lowercase side string (`"call"`)
to `calculate_moneyness`, which compares against `"Call"` with a capital C, so
a call with spot `110 > strike 100` is classified Out-of-the-Money with no
intrinsic value; the capitalized argument the function expects — reachable
from no call site — would give the In-the-Money classification with intrinsic
value `10` that the claim describes. -/
theorem moneyness_call_branch_never_taken :
    calculate_moneyness 110 100 "call" = ("Out-of-the-Money", "OTM", MoneyDesc.noIntrinsic) ∧
      calculate_moneyness 110 100 "Call" = ("In-the-Money", "ITM", MoneyDesc.intrinsic 10) := by
  constructor
  · rw [calculate_moneyness, if_pos (by norm_num : (110 : ℝ) > 100),
      if_neg (by decide : ¬("call" = "Call"))]
  · rw [calculate_moneyness, if_pos (by norm_num : (110 : ℝ) > 100), if_pos rfl]
    simp only [Prod.mk.injEq, MoneyDesc.intrinsic.injEq]
    norm_num

/-- C5 (counterexample): the program does validate the risk-free rate:
`validate_inputs` rejects `r = -1` with an explicit error message, refuting
the claim that there is no rejection of negative `r`. -/
theorem negative_rate_rejected_by_validator :
    validate_inputs 100 100 1 (-1) (1 / 2) = ["Risk-free rate cannot be negative"] := by
  rw [validate_inputs, if_neg (by norm_num), if_neg (by norm_num), if_neg (by norm_num),
    if_neg (by norm_num), if_pos (by norm_num)]
  rfl

/-- C5 (amended): for `S, K, T, sigma > 0` and every real `r` — including zero
and negative values — the pricing formula is evaluated as given with no
clamping of `r`; however `validate_inputs` accepts the input exactly when
`0 ≤ r`, so the interactive pipeline rejects negative rates. -/
theorem rate_not_clamped_but_validated :
    ∀ S K T r sigma : ℝ, 0 < S → 0 < K → 0 < T → 0 < sigma →
      black_scholes_call S K T r sigma =
        max 0 (S * normCdf (bs_d1 S K T r sigma) -
          K * Real.exp (-r * T) * normCdf (bs_d2 S K T r sigma)) ∧
      (validate_inputs S K T r sigma = [] ↔ 0 ≤ r) := by
  intro S K T r sigma hS hK hT hsig
  constructor
  · rw [black_scholes_call, if_neg (not_invalid hS hK hT hsig)]
  · rw [validate_inputs, if_neg (not_le.2 hS), if_neg (not_le.2 hK), if_neg (not_le.2 hT),
      if_neg (not_le.2 hsig)]
    simp only [List.nil_append]
    split_ifs with h
    · exact iff_of_false (by simp) (not_le.2 h)
    · exact iff_of_true rfl (not_lt.1 h)

/-- Witness for `rate_not_clamped_but_validated` at the negative rate `r = -1`. -/
theorem rate_not_clamped_but_validated_witness :
    black_scholes_call 100 100 1 (-1) 1 =
      max 0 (100 * normCdf (bs_d1 100 100 1 (-1) 1) -
        100 * Real.exp (-(-1) * 1) * normCdf (bs_d2 100 100 1 (-1) 1)) ∧
    (validate_inputs 100 100 1 (-1) 1 = [] ↔ 0 ≤ (-1 : ℝ)) :=
  rate_not_clamped_but_validated 100 100 1 (-1) 1 (by norm_num) (by norm_num)
    (by norm_num) (by norm_num)

/-- C7: the Greeks computed by `print_results` have identical Gamma and Vega
for the call side and the put side: `calculate_gamma` and `calculate_vega`
take no side argument and are invoked once, side-independently. -/
theorem gamma_vega_side_independent :
    ∀ S K T r sigma : ℝ,
      (print_results_greeks S K T r sigma "call").gamma =
        (print_results_greeks S K T r sigma "put").gamma ∧
      (print_results_greeks S K T r sigma "call").vega =
        (print_results_greeks S K T r sigma "put").vega := by
  intro S K T r sigma
  rw [print_results_greeks, print_results_greeks, if_pos rfl,
    if_neg (by decide : ¬("put" = "call"))]
  exact ⟨rfl, rfl⟩

/-- C9: the CLI side normalization of `interactive_mode` produces `"put"`
exactly when the lowercased input is `"put"`, and `"call"` in every other
case (including unrecognized values, which default to `"call"`). -/
theorem side_normalization :
    ∀ s : String,
      interactive_option_type s = if str_lower s = "put" then "put" else "call" := by
  intro s
  by_cases h1 : str_lower s = "put"
  · simp [interactive_option_type, h1]
  · by_cases h2 : str_lower s = "call"
    · simp [interactive_option_type, h1, h2]
    · simp [interactive_option_type, h1, h2]

/-- C10: every pricing and Greek function of the embedding is a total function
returning a real number; when any of `S, K, T, sigma` is nonpositive each of
the seven functions returns exactly `0.0`, and both price functions are
clamped nonnegative via `max(0, price)` for all inputs. -/
theorem greeks_total_zero_invalid_prices_clamped :
    ∀ (S K T r sigma : ℝ) (option_type : String),
      ((S ≤ 0 ∨ K ≤ 0 ∨ T ≤ 0 ∨ sigma ≤ 0) →
        black_scholes_call S K T r sigma = 0 ∧
        black_scholes_put S K T r sigma = 0 ∧
        calculate_delta S K T r sigma option_type = 0 ∧
        calculate_gamma S K T r sigma = 0 ∧
        calculate_theta S K T r sigma option_type = 0 ∧
        calculate_vega S K T r sigma = 0 ∧
        calculate_rho S K T r sigma option_type = 0) ∧
      0 ≤ black_scholes_call S K T r sigma ∧ 0 ≤ black_scholes_put S K T r sigma := by
  intro S K T r sigma ot
  refine ⟨fun h => ⟨?_, ?_, ?_, ?_, ?_, ?_, ?_⟩,
    black_scholes_call_nonneg S K T r sigma, black_scholes_put_nonneg S K T r sigma⟩
  · rw [black_scholes_call, if_pos h]
  · rw [black_scholes_put, if_pos h]
  · rw [calculate_delta, if_pos h]
  · rw [calculate_gamma, if_pos h]
  · rw [calculate_theta, if_pos h]
  · rw [calculate_vega, if_pos h]
  · rw [calculate_rho, if_pos h]

/-- Witness for `greeks_total_zero_invalid_prices_clamped` at `S = -1`. -/
theorem greeks_total_zero_invalid_prices_clamped_witness :
    (black_scholes_call (-1) 100 1 0 1 = 0 ∧
      black_scholes_put (-1) 100 1 0 1 = 0 ∧
      calculate_delta (-1) 100 1 0 1 "call" = 0 ∧
      calculate_gamma (-1) 100 1 0 1 = 0 ∧
      calculate_theta (-1) 100 1 0 1 "call" = 0 ∧
      calculate_vega (-1) 100 1 0 1 = 0 ∧
      calculate_rho (-1) 100 1 0 1 "call" = 0) ∧
    0 ≤ black_scholes_call (-1) 100 1 0 1 ∧ 0 ≤ black_scholes_put (-1) 100 1 0 1 :=
  ⟨(greeks_total_zero_invalid_prices_clamped (-1) 100 1 0 1 "call").1
      (Or.inl (by norm_num)),
    (greeks_total_zero_invalid_prices_clamped (-1) 100 1 0 1 "call").2⟩

/-- C3: put-call parity holds exactly over the exact-arithmetic embedding:
for every valid input the call price minus the put price equals
`S - K·e^(-rT)` (the `max(0,·)` clamps are inactive since both raw prices
are nonnegative). -/
theorem put_call_parity :
    ∀ S K T r sigma : ℝ, 0 < S → 0 < K → 0 < T → 0 < sigma →
      black_scholes_call S K T r sigma - black_scholes_put S K T r sigma =
        S - K * Real.exp (-r * T) := by
  intro S K T r sigma hS hK hT hsig
  rw [black_scholes_call_eq hS hK hT hsig, black_scholes_put_eq hS hK hT hsig]
  exact parity_raw S K T r sigma

/-- Witness for `put_call_parity` at `S = K = 100`, `T = 1`, `r = 0`, `sigma = 1`. -/
theorem put_call_parity_witness :
    black_scholes_call 100 100 1 0 1 - black_scholes_put 100 100 1 0 1 =
      100 - 100 * Real.exp (-0 * 1) :=
  put_call_parity 100 100 1 0 1 (by norm_num) (by norm_num) (by norm_num) (by norm_num)

/-- C8: for valid inputs and any real rate, the call Delta `Φ(d1)` lies in
`[0, 1]` and the put Delta `Φ(d1) - 1` lies in `[-1, 0]`. -/
theorem delta_bounds :
    ∀ S K T r sigma : ℝ, 0 < S → 0 < K → 0 < T → 0 < sigma →
      (0 ≤ calculate_delta S K T r sigma "call" ∧
        calculate_delta S K T r sigma "call" ≤ 1) ∧
      (-1 ≤ calculate_delta S K T r sigma "put" ∧
        calculate_delta S K T r sigma "put" ≤ 0) := by
  intro S K T r sigma hS hK hT hsig
  have hcall : calculate_delta S K T r sigma "call" = normCdf (bs_d1 S K T r sigma) := by
    rw [calculate_delta, if_neg (not_invalid hS hK hT hsig), if_pos rfl]
  have hput : calculate_delta S K T r sigma "put" =
      normCdf (bs_d1 S K T r sigma) - 1 := by
    rw [calculate_delta, if_neg (not_invalid hS hK hT hsig),
      if_neg (by decide : ¬("put" = "call"))]
  have h1 := normCdf_nonneg (bs_d1 S K T r sigma)
  have h2 := normCdf_le_one (bs_d1 S K T r sigma)
  exact ⟨⟨by rw [hcall]; exact h1, by rw [hcall]; exact h2⟩,
    ⟨by rw [hput]; linarith, by rw [hput]; linarith⟩⟩

/-- Witness for `delta_bounds` at `S = K = T = sigma = 1`, `r = 0`. -/
theorem delta_bounds_witness :
    (0 ≤ calculate_delta 1 1 1 0 1 "call" ∧ calculate_delta 1 1 1 0 1 "call" ≤ 1) ∧
      (-1 ≤ calculate_delta 1 1 1 0 1 "put" ∧ calculate_delta 1 1 1 0 1 "put" ≤ 0) :=
  delta_bounds 1 1 1 0 1 (by norm_num) (by norm_num) (by norm_num) (by norm_num)

/-- C6: the Rho of the source, whose `d2` is computed directly as
`(ln(S/K) + (r - 0.5σ²)T)/(σ√T)`, agrees on the valid domain (for either
side string) with the spec formulation whose `d2` is derived as `d1 - σ√T`. -/
theorem rho_matches_spec :
    ∀ (S K T r sigma : ℝ) (option_type : String),
      0 < S → 0 < K → 0 < T → 0 < sigma →
      calculate_rho S K T r sigma option_type = rho_spec S K T r sigma option_type := by
  intro S K T r sigma ot hS hK hT hsig
  rw [calculate_rho, rho_spec, if_neg (not_invalid hS hK hT hsig),
    rho_d2_direct_eq hT hsig]

/-- Witness for `rho_matches_spec` at `S = K = 100`, `T = 1`, `r = 0`,
`sigma = 1`, side `"call"`. -/
theorem rho_matches_spec_witness :
    calculate_rho 100 100 1 0 1 "call" = rho_spec 100 100 1 0 1 "call" :=
  rho_matches_spec 100 100 1 0 1 "call" (by norm_num) (by norm_num) (by norm_num)
    (by norm_num)

lemma exp_neg_half_lt : Real.exp (-(1 / 2) : ℝ) < 61 / 100 := by
  have h1 : Real.exp (1 / 2 : ℝ) * Real.exp (1 / 2 : ℝ) = Real.exp 1 := by
    rw [← Real.exp_add]
    norm_num
  have h2 : (2.7182818283 : ℝ) < Real.exp 1 := Real.exp_one_gt_d9
  have h3 : (0 : ℝ) < Real.exp (1 / 2) := Real.exp_pos _
  have h4 : (100 / 61 : ℝ) < Real.exp (1 / 2) := by nlinarith
  have h5 : Real.exp (-(1 / 2) : ℝ) * Real.exp (1 / 2 : ℝ) = 1 := by
    rw [← Real.exp_add]
    norm_num
  nlinarith [Real.exp_pos (-(1 / 2) : ℝ)]

/-- C4 (counterexample): a deep in-the-money put (`S = 10`, `K = 100`, `T = 1`,
`r = 1/2`, `sigma = 1`) has time value below `-29` in exact arithmetic: the
negativity is structural (the discounted strike is far below the intrinsic
value), not a floating-point rounding effect at the boundary. -/
theorem deep_itm_put_time_value_negative :
    print_results_time_value 10 100 1 (1 / 2) 1 "put" < -29 := by
  rw [print_results_time_value, print_results_option_price, print_results_intrinsic,
    if_neg (by decide : ¬("put" = "call")), if_neg (by decide : ¬("put" = "call")),
    black_scholes_put, if_neg (by norm_num)]
  have harg : (-(1 / 2) * 1 : ℝ) = -(1 / 2) := by norm_num
  rw [harg]
  have he := exp_neg_half_lt
  have hB : 100 * Real.exp (-(1 / 2) : ℝ) * normCdf (-bs_d2 10 100 1 (1 / 2) 1) -
      10 * normCdf (-bs_d1 10 100 1 (1 / 2) 1) < 61 := by
    have h1 := normCdf_le_one (-bs_d2 10 100 1 (1 / 2) 1)
    have h2 := normCdf_nonneg (-bs_d2 10 100 1 (1 / 2) 1)
    have h3 := normCdf_nonneg (-bs_d1 10 100 1 (1 / 2) 1)
    have h4 : (0 : ℝ) < Real.exp (-(1 / 2)) := Real.exp_pos _
    nlinarith
  have hmax : max 0 (100 * Real.exp (-(1 / 2) : ℝ) * normCdf (-bs_d2 10 100 1 (1 / 2) 1) -
      10 * normCdf (-bs_d1 10 100 1 (1 / 2) 1)) < 61 :=
    max_lt (by norm_num) hB
  have h90 : max (0 : ℝ) (100 - 10) = 90 := by norm_num
  rw [h90]
  linarith

/-- C4 (amended): for the Call side with a nonnegative rate the time value is
nonnegative exactly (by construction, with no rounding caveat needed in exact
arithmetic); the Put side admits structurally negative time value, as the
counterexample shows. -/
theorem call_time_value_nonneg :
    ∀ S K T r sigma : ℝ, 0 < S → 0 < K → 0 < T → 0 < sigma → 0 ≤ r →
      0 ≤ print_results_time_value S K T r sigma "call" := by
  intro S K T r sigma hS hK hT hsig hr
  rw [print_results_time_value, print_results_option_price, print_results_intrinsic,
    if_pos rfl, if_pos rfl]
  have hput := put_raw_nonneg (r := r) hS hK hT hsig
  have hpar := parity_raw S K T r sigma
  have hexp : Real.exp (-r * T) ≤ 1 := by
    rw [Real.exp_le_one_iff]
    nlinarith
  have hKe : K * Real.exp (-r * T) ≤ K := by nlinarith [Real.exp_pos (-r * T)]
  have hA : S - K * Real.exp (-r * T) ≤ black_scholes_call S K T r sigma := by
    rw [black_scholes_call_eq hS hK hT hsig]
    linarith
  have h0 := black_scholes_call_nonneg S K T r sigma
  exact sub_nonneg.2 (max_le h0 (by linarith))

/-- Witness for `call_time_value_nonneg` at `S = 100`, `K = 90`, `T = 1`,
`r = 0`, `sigma = 1`. -/
theorem call_time_value_nonneg_witness :
    0 ≤ print_results_time_value 100 90 1 0 1 "call" :=
  call_time_value_nonneg 100 90 1 0 1 (by norm_num) (by norm_num) (by norm_num)
    (by norm_num) (by norm_num)
